import Mathlib

/-
Verification of the API-to-S3 ETL pipeline
(dags/api_to_s3/api_to_s3_etl_dag.py and dags/utils/transformations.py).

The transform functions operate on pandas DataFrames built from lists of
string-keyed dictionaries.  We embed such a dictionary as an association
list from column names to cell values.  A cell value is either a rational
number (embedding Python ints/floats), a string, a boolean, a calendar
date (days since 1970-01-01), or NaN (the pandas missing-value marker,
also used for a missing key once a frame is materialized).
-/

inductive Val where
  | num  (q : ℚ)
  | str  (s : String)
  | bool (b : Bool)
  | date (d : ℤ)
  | nan
deriving DecidableEq

abbrev Record := List (String × Val)

/-- Errors raised by the embedded pandas operations. -/
inductive PdErr where
  | keyError
  | typeError
  | parseError
  | valueErrorDuplicateColumn
deriving DecidableEq

def keys (r : Record) : List String := r.map Prod.fst

/-- Reading one cell of a record inside a frame: a missing key is NaN
(pd.DataFrame fills absent keys of a record with NaN). -/
def cell (r : Record) (c : String) : Val := (List.lookup c r).getD Val.nan

def dedupAux : List String → List String → List String
  | [], _ => []
  | k :: ks, seen => if k ∈ seen then dedupAux ks seen else k :: dedupAux ks (k :: seen)

/-- Column names in order of first appearance, without duplicates. -/
def dedupKeys (ks : List String) : List String := dedupAux ks []

/-- Columns of the frame pd.DataFrame(records): the union of the record
keys in order of first appearance. -/
def cols (rs : List Record) : List String := dedupKeys ((rs.map keys).flatten)

/-- pd.DataFrame(records) followed by to_dict(orient=records): every row
acquires every column of the frame, with NaN where the key was absent. -/
def materialize (rs : List Record) : List Record :=
  rs.map (fun r => (cols rs).map (fun c => (c, cell r c)))

/-- df[k] = v for a single row: overwrite an existing column, otherwise
append a new one. -/
def setKey (r : Record) (k : String) (v : Val) : Record :=
  if k ∈ keys r then r.map (fun p => if p.1 = k then (k, v) else p) else r ++ [(k, v)]

/-- df[k] = scalar: broadcast one value to every row. -/
def setColConst (rs : List Record) (k : String) (v : Val) : List Record :=
  rs.map (fun r => setKey r k v)

/-- df[k] = series: one value per row. -/
def setCol (rs : List Record) (k : String) (vs : List Val) : List Record :=
  List.zipWith (fun r v => setKey r k v) rs vs

/-- One column of the frame as a list of cells. -/
def column (rs : List Record) (c : String) : List Val := rs.map (fun r => cell r c)

/-- Numeric reading of a cell.  NaN and non-numeric cells read as none. -/
def asNum : Val → Option ℚ
  | .num q => some q
  | _ => none

/-- Cells on which a numeric pandas reduction (Series.mean, rolling mean)
raises.  Strings make the column object-dtype and the reduction fails;
boolean and datetime columns are also modelled as failing, a conservative
reading never reached by the theorems below (every numeric column they
touch holds only num/NaN cells, as the source aggregates produce). -/
def nonNumericCell : Val → Bool
  | .str _ => true
  | .bool _ => true
  | .date _ => true
  | _ => false

/-- Series.mean(): skips NaN; NaN when no numeric value is present. -/
def seriesMean (vs : List Val) : Except PdErr Val :=
  if vs.any nonNumericCell then .error .typeError
  else
    let qs := vs.filterMap asNum
    if qs = [] then .ok .nan else .ok (.num (qs.sum / (qs.length : ℚ)))

def listMean (qs : List ℚ) : ℚ := qs.sum / (qs.length : ℚ)

/-- Indexed map, used to state what the frame operations do row by row. -/
def mapWithIndex (f : ℕ → α → β) : List α → List β
  | [] => []
  | a :: as => f 0 a :: mapWithIndex (fun i => f (i + 1)) as

/-- The trailing window of at most three cells ending at index i. -/
def windowCells (vs : List Val) (i : ℕ) : List Val := (vs.take (i + 1)).drop (i - 2)

/-- Value at index i of Series.rolling(window=3, min_periods=1).mean():
the mean of the non-NaN cells among positions i-2..i, NaN if none. -/
def windowVal (vs : List Val) (i : ℕ) : Val :=
  let qs := (windowCells vs i).filterMap asNum
  if qs = [] then .nan else .num (qs.sum / (qs.length : ℚ))

/-- The 3-point trailing mean of a fully numeric column. -/
def windowMean (qs : List ℚ) (i : ℕ) : ℚ :=
  let w := (qs.take (i + 1)).drop (i - 2)
  w.sum / (w.length : ℚ)

/-- Series.rolling(window=3, min_periods=1).mean() over a column. -/
def rollingMean3 (vs : List Val) : Except PdErr (List Val) :=
  if vs.any nonNumericCell then .error .typeError
  else .ok (mapWithIndex (fun i _ => windowVal vs i) vs)

def dayNames : List String :=
  ["Thursday", "Friday", "Saturday", "Sunday", "Monday", "Tuesday", "Wednesday"]

/-- Weekday name of an epoch day; day 0 (1970-01-01) is a Thursday. -/
def dayName (d : ℤ) : String := dayNames.getD (d % 7).toNat ""

/-- pd.to_datetime applied to one cell of the date column, reduced to the
epoch day it denotes.  Numeric cells parse as nanoseconds since the epoch,
NaN becomes NaT (none); string and boolean cells are modelled as failing
to parse (to_datetime is called without errors=coerce here, so a failure
raises); no theorem below reaches a string date cell. -/
def toDatetimeDay : Val → Except PdErr (Option ℤ)
  | .date d => .ok (some d)
  | .num q => .ok (some ⌊q / ((86400 : ℚ) * 1000000000)⌋)
  | .nan => .ok none
  | .str _ => .error .parseError
  | .bool _ => .error .typeError

def dayOfWeekVal : Option ℤ → Val
  | some d => .str (dayName d)
  | none => .nan

/-- Effectful map over Except, used for the per-cell date parse. -/
def mapME (f : α → Except PdErr β) : List α → Except PdErr (List β)
  | [] => .ok []
  | a :: as =>
    match f a, mapME f as with
    | .ok b, .ok bs => .ok (b :: bs)
    | .error e, _ => .error e
    | .ok _, .error e => .error e

/-- np.abs(series - mean) > 3 * std for one cell, with pandas NaN
comparison semantics: any NaN operand makes the comparison False. -/
def outlierFlag (mv sv v : Val) : Val :=
  match asNum v, asNum mv, asNum sv with
  | some q, some m, some s => .bool (decide (3 * s < |q - m|))
  | _, _, _ => .bool false

/-
enrich_dataset from dags/utils/transformations.py, split into its four
blocks in source order.  The column-membership guards are tested against
the columns of the incoming frame, which is equivalent to the source
testing df.columns at each line, because no step adds a column named
value_mean, value_std or date.
-/

/-- Lines 92-94: broadcast total_records, avg_records_per_day and the
processing timestamp (the wall-clock instant is passed in as now). -/
def baseCols (now : String) (daily_data : List Record) (raw_count : ℤ) : List Record :=
  setColConst (setColConst (setColConst (materialize daily_data)
    "total_records" (.num (raw_count : ℚ)))
    "avg_records_per_day" (.num ((raw_count : ℚ) / (daily_data.length : ℚ))))
    "processing_timestamp" (.str now)

/-- Lines 97-98: with at least three rows, assign the rolling mean of
df.value_mean — a KeyError when that column does not exist. -/
def maStep (cs : List String) (n : ℕ) (df : List Record) : Except PdErr (List Record) :=
  if 3 ≤ n then
    if "value_mean" ∈ cs then
      (rollingMean3 (column df "value_mean")).map (setCol df "value_mean_3day_ma")
    else .error .keyError
  else .ok df

/-- Lines 101-102: when a date column exists, assign the weekday names of
its parsed values. -/
def dowStep (cs : List String) (df : List Record) : Except PdErr (List Record) :=
  if "date" ∈ cs then
    (mapME toDatetimeDay (column df "date")).map
      (fun ds => setCol df "day_of_week" (ds.map dayOfWeekVal))
  else .ok df

/-- Lines 104-108: when both value_mean and value_std columns exist, flag
rows whose mean deviates from the average of means by more than three
times the average of standard deviations. -/
def outlierStep (cs : List String) (df : List Record) : Except PdErr (List Record) :=
  if "value_mean" ∈ cs ∧ "value_std" ∈ cs then
    match seriesMean (column df "value_mean"), seriesMean (column df "value_std") with
    | .ok mv, .ok sv =>
      .ok (setCol df "is_outlier" ((column df "value_mean").map (outlierFlag mv sv)))
    | .error e, _ => .error e
    | _, .error e => .error e
  else .ok df

/-- enrich_dataset (lines 74-111): build the frame, skip everything if it
is empty, otherwise run the enrichment blocks in source order and return
to_dict(orient=records). -/
def enrich_dataset (now : String) (daily_data : List Record) (raw_count : ℤ) :
    Except PdErr (List Record) :=
  if daily_data.isEmpty then .ok [] else
  (maStep (cols daily_data) daily_data.length (baseCols now daily_data raw_count)).bind
    (fun df4 => (dowStep (cols daily_data) df4).bind
      (fun df5 => outlierStep (cols daily_data) df5))

/-
clean_dataset from dags/utils/transformations.py.

A raw record from the API has (at least) the columns id, timestamp and
value; any of the three may be missing (NaN).  The timestamp column holds
strings: we embed a string by what pd.to_datetime(errors=coerce) makes of
it — TS.good d h for a string parsing to a datetime on epoch day d at
hour h, TS.bad for a string coerced to NaT.
-/

inductive TS where
  | good (day : ℤ) (hour : ℕ)
  | bad
deriving DecidableEq

structure RawRecord where
  id : Option ℤ
  timestamp : Option TS
  value : Option ℚ
deriving DecidableEq

/-- A row of the caller frame after clean_dataset ran: the timestamp
column now holds coerced datetimes (none = NaT). -/
structure CoercedRecord where
  id : Option ℤ
  timestamp : Option (ℤ × ℕ)
  value : Option ℚ
deriving DecidableEq

def coerceTs : TS → Option (ℤ × ℕ)
  | .good d h => some (d, h)
  | .bad => none

/-- Line 30: df.dropna(subset=[id, timestamp], inplace=True) removes, in
place, every row missing id or timestamp. -/
def dropnaIdTs (rs : List RawRecord) : List RawRecord :=
  rs.filter (fun r => r.id.isSome && r.timestamp.isSome)

/-- The caller DataFrame as clean_dataset leaves it: rows missing id or
timestamp were dropped in place (line 30) and the timestamp column was
reassigned with the coerced datetimes (line 33).  The later steps (lines
36-39) rebind the local name to fresh frames and no longer touch the
caller object. -/
def callerAfterClean (rs : List RawRecord) : List CoercedRecord :=
  (dropnaIdTs rs).map (fun r => ⟨r.id, r.timestamp.bind coerceTs, r.value⟩)

/-- Line 36: the rows that survive the NaT filter and feed both
aggregations. -/
def cleanedRows (rs : List RawRecord) : List CoercedRecord :=
  (callerAfterClean rs).filter (fun r => r.timestamp.isSome)

/-- clean_dataset, observable behaviour: the pair of the caller frame
after the in-place mutations and the outcome of the call.

Lines 42-50 build the daily aggregate frame: grouping by
df.timestamp.dt.date succeeds, and its reset_index inserts a column
named timestamp (the dt accessor keeps the parent column name), so the
rename of index to date on line 50 matches nothing.  That frame is then
dead until the return statement.  Lines 53-61 build the hourly aggregate,
grouped by the two series df.timestamp.dt.date and df.timestamp.dt.hour —
both named timestamp.  The grouped frame therefore carries two index
levels with the same name, and reset_index on line 62 raises
ValueError (cannot insert timestamp, already exists) when it tries to
insert the second one.  The renames on line 63 expected the unnamed-level
columns level_0 and level_1, which never arise here.  So the call never
returns: it raises after mutating the caller frame, for every input. -/
def clean_dataset (rs : List RawRecord) :
    List CoercedRecord × Except PdErr (List Record × List Record × ℕ) :=
  (callerAfterClean rs, .error .valueErrorDuplicateColumn)

/-
The upload task group from dags/api_to_s3/api_to_s3_etl_dag.py.

Object storage is embedded as an association list from keys to the
serialized payload written at that key.
-/

/-- S3Hook.load_file with replace=True: overwrite whatever object is at
the key. -/
def putObject (store : List (String × String)) (key payload : String) :
    List (String × String) :=
  (key, payload) :: store.filter (fun p => p.1 != key)

/-- Lines 143 and 164: the string literal assigned inside the
TaskFlow-decorated function bodies.  Airflow renders Jinja templates only
in operator template fields, never inside the Python body of a task
callable, so the placeholder survives verbatim into the key. -/
def execution_date : String := "\x7b\x7b ds \x7d\x7d"

/-- upload_daily_data (lines 140-159): dump the payload and write it at
the computed key with replace=True; returns the key. -/
def upload_daily_data (store : List (String × String)) (payload : String) :
    List (String × String) × String :=
  let s3_path := "daily/" ++ execution_date ++ "/daily_metrics.json"
  (putObject store s3_path payload, s3_path)

/-- upload_hourly_data (lines 161-180). -/
def upload_hourly_data (store : List (String × String)) (payload : String) :
    List (String × String) × String :=
  let s3_path := "hourly/" ++ execution_date ++ "/hourly_metrics.json"
  (putObject store s3_path payload, s3_path)

/-
Task retry and backoff.

Modelled from the spec: the retry executor itself is Airflow scheduler
machinery and is not part of this repository — the DAG only configures it
(default_args lines 29-40: retries, retry_delay, retry_exponential_backoff,
max_retry_delay).  Spec section 4.3: up to max_attempts tries; the delay
before attempt k+1 is min(base_delay * multiplier^k, max_delay) when
exponential backoff is enabled; a task that exhausts all attempts
transitions to terminal Failed.
-/

inductive TaskStatus where
  | succeeded
  | failed
deriving DecidableEq

/-- Modelled from the spec: run the callable until it succeeds or the
remaining attempt budget is exhausted, counting attempts made. -/
def executeAttempts (c : ℕ → Bool) : ℕ → ℕ → TaskStatus × ℕ
  | 0, used => (.failed, used)
  | n + 1, used => if c used then (.succeeded, used + 1) else executeAttempts c n (used + 1)

/-- Modelled from the spec: execute a task with the given attempt budget. -/
def executeTask (maxAttempts : ℕ) (c : ℕ → Bool) : TaskStatus × ℕ :=
  executeAttempts c maxAttempts 0

/-- Modelled from the spec: the backoff delay schedule with exponential
backoff enabled. -/
def backoffDelay (base mult maxDelay : ℚ) (k : ℕ) : ℚ :=
  min (base * mult ^ k) maxDelay

/-
Shapes of enrichment inputs quantified over by the theorems below.
-/

/-- A daily aggregate row as the spec data model describes it (section 3):
keyed by calendar date, carrying mean, sum, count, min, max, standard
deviation of value, and the distinct-id count. -/
structure SpecDaily where
  date : ℤ
  vmean : ℚ
  vsum : ℚ
  vcount : ℚ
  vmin : ℚ
  vmax : ℚ
  vstd : ℚ
  idn : ℚ
deriving DecidableEq

def toRec (d : SpecDaily) : Record :=
  [("date", .date d.date), ("value_mean", .num d.vmean), ("value_sum", .num d.vsum),
   ("value_count", .num d.vcount), ("value_min", .num d.vmin), ("value_max", .num d.vmax),
   ("value_std", .num d.vstd), ("id_nunique", .num d.idn)]

def specDailyKeys : List String :=
  ["date", "value_mean", "value_sum", "value_count", "value_min", "value_max",
   "value_std", "id_nunique"]

/-- An aggregate row carrying a date and a mean but no stddev column. -/
def meanOnlyRec (p : ℤ × ℚ) : Record :=
  [("date", .date p.1), ("value_mean", .num p.2)]

/-- An aggregate row carrying only a stddev column. -/
def stdOnlyRec (q : ℚ) : Record := [("value_std", .num q)]

/-- The three columns broadcast by lines 92-94, as they appear appended to
each row. -/
def addedConst (now : String) (rc : ℤ) (n : ℕ) : Record :=
  [("total_records", .num (rc : ℚ)), ("avg_records_per_day", .num ((rc : ℚ) / (n : ℚ))),
   ("processing_timestamp", .str now)]

/-- The enriched row enrich_dataset produces for the i-th spec-shaped
daily aggregate. -/
def enrichedRowSpec (now : String) (rc : ℤ) (l : List SpecDaily) (i : ℕ) (d : SpecDaily) :
    Record :=
  (((toRec d ++ addedConst now rc l.length)
    ++ (if 3 ≤ l.length then
          [("value_mean_3day_ma", Val.num (windowMean (l.map SpecDaily.vmean) i))]
        else []))
    ++ [("day_of_week", Val.str (dayName d.date))])
    ++ [("is_outlier",
         Val.bool (decide (3 * listMean (l.map SpecDaily.vstd) <
           |d.vmean - listMean (l.map SpecDaily.vmean)|)))]

/-
Concrete inputs used by the claim theorems below.
-/

def c6RowA : SpecDaily := ⟨20209, 1, 1, 1, 1, 1, 0, 1⟩

def c6RowB : SpecDaily := ⟨20210, 2, 2, 1, 2, 2, 0, 1⟩

def c6RowC : SpecDaily := ⟨20211, 6, 6, 1, 6, 6, 0, 1⟩

def c7Row : SpecDaily := ⟨20209, 10, 10, 1, 10, 10, 1, 1⟩

def c10RowA : SpecDaily := ⟨20209, 5, 55, 11, 1, 9, 2, 11⟩

def c10RowB : SpecDaily := ⟨20210, 6, 66, 11, 2, 10, 2, 11⟩

def c2Input : List RawRecord := [RawRecord.mk none (some (.good 20209 10)) (some 3)]

def c3Input : List RawRecord := [RawRecord.mk (some 1) (some (.good 20209 2)) (some 5)]

def c4Input : List RawRecord :=
  [RawRecord.mk (some 1) (some (.good 0 0)) none,
   RawRecord.mk (some 2) (some (.good 0 1)) (some 2)]

/-- The end-to-end scenario of spec section 8: 25 raw records over two
calendar days, the last 3 with unparsable timestamps. -/
def sample25 : List RawRecord :=
  ((List.range 11).map
      (fun (i : ℕ) =>
        RawRecord.mk (some (Int.ofNat i + 1)) (some (.good 20209 (i % 24))) (some ((i : ℚ) + 1))))
  ++ ((List.range 11).map
      (fun (i : ℕ) =>
        RawRecord.mk (some (Int.ofNat i + 12)) (some (.good 20210 (i % 24))) (some ((i : ℚ) + 1))))
  ++ [RawRecord.mk (some 23) (some .bad) (some 1),
      RawRecord.mk (some 24) (some .bad) (some 2),
      RawRecord.mk (some 25) (some .bad) (some 3)]

/-
Basic lemmas about the frame embedding.
-/

lemma length_mapWithIndex (f : ℕ → α → β) (l : List α) :
    (mapWithIndex f l).length = l.length := by
  induction l generalizing f with
  | nil => rfl
  | cons a t ih => simp [mapWithIndex, ih]

lemma getElem?_mapWithIndex (f : ℕ → α → β) (l : List α) (i : ℕ) :
    (mapWithIndex f l)[i]? = l[i]?.map (f i) := by
  induction l generalizing f i with
  | nil => simp [mapWithIndex]
  | cons a t ih =>
    cases i with
    | zero => simp [mapWithIndex]
    | succ j => simp [mapWithIndex, ih]

lemma mapWithIndex_map (f : ℕ → β → γ) (g : α → β) (l : List α) :
    mapWithIndex f (l.map g) = mapWithIndex (fun i a => f i (g a)) l := by
  induction l generalizing f with
  | nil => rfl
  | cons a t ih => simp [mapWithIndex, ih]

lemma map_mapWithIndex (g : β → γ) (f : ℕ → α → β) (l : List α) :
    (mapWithIndex f l).map g = mapWithIndex (fun i a => g (f i a)) l := by
  induction l generalizing f with
  | nil => rfl
  | cons a t ih => simp [mapWithIndex, ih]

lemma map_eq_mapWithIndex (g : α → β) (l : List α) :
    l.map g = mapWithIndex (fun _ a => g a) l := by
  induction l with
  | nil => rfl
  | cons a t ih => simp [mapWithIndex, ih]

lemma zipWith_mapWithIndex (h : β → γ → δ) (F : ℕ → α → β) (G : ℕ → α → γ) (l : List α) :
    List.zipWith h (mapWithIndex F l) (mapWithIndex G l) =
      mapWithIndex (fun i a => h (F i a) (G i a)) l := by
  induction l generalizing F G with
  | nil => rfl
  | cons a t ih => simp [mapWithIndex, ih]

lemma mapWithIndex_congr (F G : ℕ → α → β) (l : List α)
    (hfg : ∀ i, i < l.length → ∀ a, F i a = G i a) :
    mapWithIndex F l = mapWithIndex G l := by
  induction l generalizing F G with
  | nil => rfl
  | cons a t ih =>
    simp only [mapWithIndex]
    rw [hfg 0 (by simp) a]
    rw [ih _ _ (fun i hi b => hfg (i + 1) (by simpa using Nat.succ_lt_succ hi) b)]

lemma mem_mapWithIndex {b : β} (F : ℕ → α → β) (l : List α) :
    b ∈ mapWithIndex F l → ∃ i a, l[i]? = some a ∧ b = F i a := by
  induction l generalizing F with
  | nil => simp [mapWithIndex]
  | cons x t ih =>
    intro h
    rcases (by simpa [mapWithIndex] using h : b = F 0 x ∨ b ∈ mapWithIndex (fun i => F (i + 1)) t) with
      h0 | h1
    · exact ⟨0, x, by simp, h0⟩
    · obtain ⟨i, a, ha, hb⟩ := ih _ h1
      exact ⟨i + 1, a, by simpa using ha, hb⟩

lemma mapME_mapWithIndex_ok (f : β → Except PdErr γ) (F : ℕ → α → β) (G : ℕ → α → γ)
    (l : List α) (hf : ∀ i a, f (F i a) = .ok (G i a)) :
    mapME f (mapWithIndex F l) = .ok (mapWithIndex G l) := by
  induction l generalizing F G with
  | nil => rfl
  | cons a t ih =>
    simp only [mapWithIndex, mapME, hf 0 a,
      ih (fun i => F (i + 1)) (fun i => G (i + 1)) (fun i b => hf (i + 1) b)]

lemma lookup_append_left {k : String} {xs ys : Record} (h : k ∈ keys xs) :
    List.lookup k (xs ++ ys) = List.lookup k xs := by
  induction xs with
  | nil => simp [keys] at h
  | cons p t ih =>
    obtain ⟨k1, v1⟩ := p
    by_cases hk : k = k1
    · subst hk; simp [List.lookup]
    · have hb : (k == k1) = false := beq_eq_false_iff_ne.mpr hk
      have hm : k ∈ keys t := by
        rcases (by simpa [keys] using h : k = k1 ∨ k ∈ keys t) with h1 | h1
        · exact absurd h1 hk
        · exact h1
      simpa [List.lookup, hb] using ih hm

lemma record_reconstruct (r : Record) (hnd : (keys r).Nodup) :
    (keys r).map (fun c => (c, cell r c)) = r := by
  induction r with
  | nil => rfl
  | cons p t ih =>
    obtain ⟨k, v⟩ := p
    have h0 : keys ((k, v) :: t) = k :: keys t := rfl
    rw [h0] at hnd ⊢
    obtain ⟨hk, hnd'⟩ := List.nodup_cons.mp hnd
    rw [List.map_cons]
    have hcell : cell ((k, v) :: t) k = v := by simp [cell, List.lookup]
    rw [hcell]
    have hrest : ∀ c ∈ keys t, ((c, cell ((k, v) :: t) c) : String × Val) = (c, cell t c) := by
      intro c hc
      have hne : (c == k) = false := beq_eq_false_iff_ne.mpr (fun he => hk (he ▸ hc))
      simp [cell, List.lookup, hne]
    rw [List.map_congr_left hrest, ih hnd']

lemma dedupAux_all_mem (xs : List String) :
    ∀ seen, (∀ x ∈ xs, x ∈ seen) → dedupAux xs seen = [] := by
  induction xs with
  | nil => intro seen _; rfl
  | cons x t ih =>
    intro seen h
    simp only [dedupAux, if_pos (h x (List.mem_cons_self x t))]
    exact ih seen (fun y hy => h y (List.mem_cons_of_mem x hy))

lemma dedupAux_append_subset (xs ys : List String) :
    ∀ seen, (∀ y ∈ ys, y ∈ xs ∨ y ∈ seen) → dedupAux (xs ++ ys) seen = dedupAux xs seen := by
  induction xs with
  | nil =>
    intro seen h
    simpa [dedupAux] using dedupAux_all_mem ys seen
      (fun y hy => (h y hy).resolve_left (by simp))
  | cons x t ih =>
    intro seen h
    by_cases hx : x ∈ seen
    · simp only [List.cons_append, dedupAux, if_pos hx]
      refine ih seen (fun y hy => ?_)
      rcases h y hy with h1 | h1
      · rcases List.mem_cons.mp h1 with h2 | h2
        · exact Or.inr (h2 ▸ hx)
        · exact Or.inl h2
      · exact Or.inr h1
    · simp only [List.cons_append, dedupAux, if_neg hx]
      congr 1
      refine ih (x :: seen) (fun y hy => ?_)
      rcases h y hy with h1 | h1
      · rcases List.mem_cons.mp h1 with h2 | h2
        · exact Or.inr (h2 ▸ List.mem_cons_self x seen)
        · exact Or.inl h2
      · exact Or.inr (List.mem_cons_of_mem x h1)

lemma cols_uniform (S : α → Record) (K : List String) (hS : ∀ a, keys (S a) = K)
    (l : List α) (hne : l ≠ []) : cols (l.map S) = dedupKeys K := by
  obtain ⟨a, t, rfl⟩ := List.exists_cons_of_ne_nil hne
  have h1 : ((a :: t).map S).map keys = K :: t.map (fun _ => K) := by
    simp only [List.map_cons, List.map_map]
    rw [hS a]
    congr 1
    exact List.map_congr_left (fun b _ => hS b)
  rw [cols, h1]
  simp only [List.flatten]
  rw [dedupKeys, dedupAux_append_subset K _ [] (fun y hy => Or.inl (by
    obtain ⟨L, hL, hyL⟩ := List.mem_flatten.mp hy
    obtain ⟨b, _, rfl⟩ := List.mem_map.mp hL
    exact hyL))]
  rfl

lemma materialize_uniform (S : α → Record) (K : List String) (hS : ∀ a, keys (S a) = K)
    (hd : dedupKeys K = K) (hnd : K.Nodup) (l : List α) (hne : l ≠ []) :
    materialize (l.map S) = l.map S := by
  unfold materialize
  rw [cols_uniform S K hS l hne, hd]
  have h' : ∀ r ∈ l.map S, K.map (fun c => (c, cell r c)) = id r := by
    intro r hr
    obtain ⟨a, _, rfl⟩ := List.mem_map.mp hr
    rw [← hS a]
    exact record_reconstruct (S a) (by rw [hS a]; exact hnd)
  rw [List.map_congr_left h', List.map_id]

lemma setKey_append (r : Record) (k : String) (v : Val) (h : k ∉ keys r) :
    setKey r k v = r ++ [(k, v)] := by
  simp [setKey, h]

lemma setColConst_map (f : α → Record) (k : String) (v : Val) (l : List α)
    (h : ∀ a, k ∉ keys (f a)) :
    setColConst (l.map f) k v = l.map (fun a => f a ++ [(k, v)]) := by
  simp only [setColConst, List.map_map]
  exact List.map_congr_left (fun a _ => by
    simp only [Function.comp_apply]
    exact setKey_append _ _ _ (h a))

lemma column_map (f : α → Record) (c : String) (l : List α) :
    column (l.map f) c = l.map (fun a => cell (f a) c) := by
  simp [column, List.map_map, Function.comp]

lemma filterMap_asNum_map_num (qs : List ℚ) : (qs.map Val.num).filterMap asNum = qs := by
  induction qs with
  | nil => rfl
  | cons q t ih => simp [asNum, ih]

lemma map_num_comp (g : α → ℚ) (l : List α) :
    l.map (fun a => Val.num (g a)) = (l.map g).map Val.num := by
  rw [List.map_map]; rfl

lemma any_nonNumeric_map_num (g : α → ℚ) (l : List α) :
    (l.map (fun a => Val.num (g a))).any nonNumericCell = false := by
  induction l with
  | nil => rfl
  | cons a t ih => simp [nonNumericCell, ih]

lemma windowVal_map_num (g : α → ℚ) (l : List α) (i : ℕ) (hi : i < l.length) :
    windowVal (l.map (fun a => Val.num (g a))) i = .num (windowMean (l.map g) i) := by
  unfold windowVal windowMean windowCells
  have hmap : ((l.map (fun a => Val.num (g a))).take (i + 1)).drop (i - 2) =
      (((l.map g).take (i + 1)).drop (i - 2)).map Val.num := by
    rw [map_num_comp, ← List.map_take, ← List.map_drop]
  rw [hmap, filterMap_asNum_map_num]
  have hw : ((l.map g).take (i + 1)).drop (i - 2) ≠ [] := by
    have hlen : (((l.map g).take (i + 1)).drop (i - 2)).length = (i + 1) - (i - 2) := by
      rw [List.length_drop, List.length_take, List.length_map]
      omega
    have : 0 < (((l.map g).take (i + 1)).drop (i - 2)).length := by omega
    exact List.ne_nil_of_length_pos this
  simp [hw]

lemma rollingMean3_map_num (g : α → ℚ) (l : List α) :
    rollingMean3 (l.map (fun a => Val.num (g a))) =
      .ok (mapWithIndex (fun i _ => Val.num (windowMean (l.map g) i)) l) := by
  unfold rollingMean3
  rw [any_nonNumeric_map_num]
  simp only [Bool.false_eq_true, if_false]
  congr 1
  rw [mapWithIndex_map]
  exact mapWithIndex_congr _ _ _ (fun i hi a => windowVal_map_num g l i hi)

lemma seriesMean_map_num (g : α → ℚ) (l : List α) (hne : l ≠ []) :
    seriesMean (l.map (fun a => Val.num (g a))) = .ok (.num (listMean (l.map g))) := by
  unfold seriesMean listMean
  rw [any_nonNumeric_map_num]
  have h1 : (l.map (fun a => Val.num (g a))).filterMap asNum = l.map g := by
    rw [map_num_comp, filterMap_asNum_map_num]
  have h2 : l.map g ≠ [] := fun he => hne (List.map_eq_nil_iff.mp he)
  simp [h1, h2]

lemma keys_append (r1 r2 : Record) : keys (r1 ++ r2) = keys r1 ++ keys r2 := by
  simp [keys]

lemma except_bind_ok (x : α) (f : α → Except PdErr β) : (Except.ok x).bind f = f x := rfl

lemma except_bind_error (e : PdErr) (f : α → Except PdErr β) :
    (Except.error e : Except PdErr α).bind f = .error e := rfl

lemma map_not_isEmpty (f : α → β) (l : List α) (hne : l ≠ []) : (l.map f).isEmpty = false := by
  cases l with
  | nil => exact absurd rfl hne
  | cons a t => rfl

lemma setKey_append3 (r : Record) (v1 v2 v3 : Val)
    (h1 : "total_records" ∉ keys r) (h2 : "avg_records_per_day" ∉ keys r)
    (h3 : "processing_timestamp" ∉ keys r) :
    setKey (setKey (setKey r "total_records" v1) "avg_records_per_day" v2)
        "processing_timestamp" v3 =
      r ++ [("total_records", v1), ("avg_records_per_day", v2), ("processing_timestamp", v3)] := by
  rw [setKey_append r _ v1 h1]
  have e1 : keys (r ++ [("total_records", v1)]) = keys r ++ ["total_records"] := by
    rw [keys_append]; rfl
  rw [setKey_append _ _ v2 (by rw [e1]; simp [h2])]
  have e2 : keys ((r ++ [("total_records", v1)]) ++ [("avg_records_per_day", v2)]) =
      (keys r ++ ["total_records"]) ++ ["avg_records_per_day"] := by
    rw [keys_append, e1]; rfl
  rw [setKey_append _ _ v3 (by rw [e2]; simp [h3])]
  simp

lemma baseCols_uniform (S : α → Record) (K : List String) (hS : ∀ a, keys (S a) = K)
    (hd : dedupKeys K = K) (hnd : K.Nodup)
    (h1 : "total_records" ∉ K) (h2 : "avg_records_per_day" ∉ K)
    (h3 : "processing_timestamp" ∉ K)
    (now : String) (rc : ℤ) (l : List α) (hne : l ≠ []) :
    baseCols now (l.map S) rc = l.map (fun a => S a ++ addedConst now rc l.length) := by
  unfold baseCols addedConst
  rw [materialize_uniform S K hS hd hnd l hne]
  simp only [setColConst, List.map_map, List.length_map]
  refine List.map_congr_left (fun a _ => ?_)
  simp only [Function.comp_apply]
  exact setKey_append3 (S a) _ _ _
    (by rw [hS a]; exact h1) (by rw [hS a]; exact h2) (by rw [hS a]; exact h3)

lemma maStep_skip (cs : List String) (n : ℕ) (df : List Record) (h : ¬ 3 ≤ n) :
    maStep cs n df = .ok df := by
  simp [maStep, h]

lemma maStep_keyError (cs : List String) (n : ℕ) (df : List Record)
    (h3 : 3 ≤ n) (hm : "value_mean" ∉ cs) :
    maStep cs n df = .error .keyError := by
  simp [maStep, h3, hm]

lemma maStep_eval (cs : List String) (l : List α) (F : ℕ → α → Record) (m : α → ℚ)
    (h3 : 3 ≤ l.length) (hcs : "value_mean" ∈ cs)
    (hm : ∀ i a, cell (F i a) "value_mean" = .num (m a))
    (hnk : ∀ i a, "value_mean_3day_ma" ∉ keys (F i a)) :
    maStep cs l.length (mapWithIndex F l) =
      .ok (mapWithIndex (fun i a => F i a ++
        [("value_mean_3day_ma", Val.num (windowMean (l.map m) i))]) l) := by
  unfold maStep
  rw [if_pos h3, if_pos hcs]
  have hcol : column (mapWithIndex F l) "value_mean" = l.map (fun a => Val.num (m a)) := by
    unfold column
    rw [map_mapWithIndex]
    rw [mapWithIndex_congr _ (fun _ a => Val.num (m a)) l (fun i _ a => hm i a)]
    exact (map_eq_mapWithIndex _ l).symm
  rw [hcol, rollingMean3_map_num]
  simp only [Except.map]
  refine congrArg Except.ok ?_
  unfold setCol
  rw [zipWith_mapWithIndex]
  exact mapWithIndex_congr _ _ l (fun i _ a => by rw [setKey_append _ _ _ (hnk i a)])

lemma dowStep_skip (cs : List String) (df : List Record) (h : "date" ∉ cs) :
    dowStep cs df = .ok df := by
  simp [dowStep, h]

lemma dowStep_eval (cs : List String) (l : List α) (F : ℕ → α → Record) (g : α → ℤ)
    (hcs : "date" ∈ cs)
    (hc : ∀ i a, cell (F i a) "date" = .date (g a))
    (hnk : ∀ i a, "day_of_week" ∉ keys (F i a)) :
    dowStep cs (mapWithIndex F l) =
      .ok (mapWithIndex (fun i a => F i a ++ [("day_of_week", Val.str (dayName (g a)))]) l) := by
  unfold dowStep
  rw [if_pos hcs]
  have hcol : column (mapWithIndex F l) "date" = mapWithIndex (fun _ a => Val.date (g a)) l := by
    unfold column
    rw [map_mapWithIndex]
    exact mapWithIndex_congr _ _ l (fun i _ a => hc i a)
  rw [hcol, mapME_mapWithIndex_ok toDatetimeDay (fun _ a => Val.date (g a))
    (fun _ a => some (g a)) l (fun _ _ => rfl)]
  simp only [Except.map]
  refine congrArg Except.ok ?_
  rw [map_mapWithIndex]
  unfold setCol
  rw [zipWith_mapWithIndex]
  exact mapWithIndex_congr _ _ l (fun i _ a => by
    rw [setKey_append _ _ _ (hnk i a)]; rfl)

lemma outlierStep_skip (cs : List String) (df : List Record)
    (h : ¬ ("value_mean" ∈ cs ∧ "value_std" ∈ cs)) :
    outlierStep cs df = .ok df := by
  unfold outlierStep
  rw [if_neg h]

lemma outlierStep_eval (cs : List String) (l : List α) (F : ℕ → α → Record)
    (m s : α → ℚ) (hcs : "value_mean" ∈ cs ∧ "value_std" ∈ cs) (hne : l ≠ [])
    (hm : ∀ i a, cell (F i a) "value_mean" = .num (m a))
    (hs : ∀ i a, cell (F i a) "value_std" = .num (s a))
    (hnk : ∀ i a, "is_outlier" ∉ keys (F i a)) :
    outlierStep cs (mapWithIndex F l) =
      .ok (mapWithIndex (fun i a => F i a ++
        [("is_outlier",
          Val.bool (decide (3 * listMean (l.map s) < |m a - listMean (l.map m)|)))]) l) := by
  unfold outlierStep
  rw [if_pos hcs]
  have hcolm : column (mapWithIndex F l) "value_mean" = l.map (fun a => Val.num (m a)) := by
    unfold column
    rw [map_mapWithIndex]
    rw [mapWithIndex_congr _ (fun _ a => Val.num (m a)) l (fun i _ a => hm i a)]
    exact (map_eq_mapWithIndex _ l).symm
  have hcolstd : column (mapWithIndex F l) "value_std" = l.map (fun a => Val.num (s a)) := by
    unfold column
    rw [map_mapWithIndex]
    rw [mapWithIndex_congr _ (fun _ a => Val.num (s a)) l (fun i _ a => hs i a)]
    exact (map_eq_mapWithIndex _ l).symm
  rw [hcolm, hcolstd, seriesMean_map_num m l hne, seriesMean_map_num s l hne]
  refine congrArg Except.ok ?_
  rw [List.map_map]
  unfold setCol
  rw [map_eq_mapWithIndex (outlierFlag (.num (listMean (l.map m))) (.num (listMean (l.map s))) ∘
    fun a => Val.num (m a)) l]
  rw [zipWith_mapWithIndex]
  exact mapWithIndex_congr _ _ l (fun i _ a => by
    rw [setKey_append _ _ _ (hnk i a)]; rfl)

lemma keys_singleton (k : String) (v : Val) : keys [(k, v)] = [k] := rfl

lemma keys_cons (p : String × Val) (r : Record) : keys (p :: r) = p.1 :: keys r := rfl

lemma keys_nil : keys [] = [] := rfl

lemma keys_toRec (d : SpecDaily) : keys (toRec d) = specDailyKeys := rfl

lemma keys_addedConst (now : String) (rc : ℤ) (n : ℕ) :
    keys (addedConst now rc n) =
      ["total_records", "avg_records_per_day", "processing_timestamp"] := rfl

/-- Evaluation of enrich_dataset on any nonempty list of spec-shaped
daily aggregate rows. -/
theorem enrich_toRec_eval (now : String) (rc : ℤ) (l : List SpecDaily) (hne : l ≠ []) :
    enrich_dataset now (l.map toRec) rc = .ok (mapWithIndex (enrichedRowSpec now rc l) l) := by
  have hcols : cols (l.map toRec) = specDailyKeys := by
    rw [cols_uniform toRec specDailyKeys (fun d => rfl) l hne]; rfl
  have hbase : baseCols now (l.map toRec) rc =
      l.map (fun d => toRec d ++ addedConst now rc l.length) :=
    baseCols_uniform toRec specDailyKeys (fun d => rfl) rfl (by decide)
      (by decide) (by decide) (by decide) now rc l hne
  unfold enrich_dataset
  rw [if_neg (by rw [map_not_isEmpty toRec l hne]; exact Bool.false_ne_true)]
  rw [hcols, hbase, List.length_map, map_eq_mapWithIndex]
  by_cases h3 : 3 ≤ l.length
  · rw [maStep_eval specDailyKeys l (fun _ d => toRec d ++ addedConst now rc l.length)
      SpecDaily.vmean h3 (by decide) (fun _ _ => rfl)
      (fun _ _ => by simp [keys_append, keys_toRec, keys_addedConst, keys_singleton, keys_cons, keys_nil, specDailyKeys])]
    simp only [except_bind_ok]
    rw [dowStep_eval specDailyKeys l
      (fun i d => (toRec d ++ addedConst now rc l.length) ++
        [("value_mean_3day_ma", Val.num (windowMean (l.map SpecDaily.vmean) i))])
      SpecDaily.date (by decide) (fun _ _ => rfl)
      (fun _ _ => by simp [keys_append, keys_toRec, keys_addedConst, keys_singleton, keys_cons, keys_nil, specDailyKeys])]
    simp only [except_bind_ok]
    rw [outlierStep_eval specDailyKeys l
      (fun i d => ((toRec d ++ addedConst now rc l.length) ++
        [("value_mean_3day_ma", Val.num (windowMean (l.map SpecDaily.vmean) i))]) ++
        [("day_of_week", Val.str (dayName d.date))])
      SpecDaily.vmean SpecDaily.vstd (by decide) hne
      (fun _ _ => rfl) (fun _ _ => rfl)
      (fun _ _ => by simp [keys_append, keys_toRec, keys_addedConst, keys_singleton, keys_cons, keys_nil, specDailyKeys])]
    refine congrArg Except.ok (mapWithIndex_congr _ _ l (fun i _ d => ?_))
    simp [enrichedRowSpec, h3]
  · rw [maStep_skip _ _ _ h3]
    simp only [except_bind_ok]
    rw [dowStep_eval specDailyKeys l (fun _ d => toRec d ++ addedConst now rc l.length)
      SpecDaily.date (by decide) (fun _ _ => rfl)
      (fun _ _ => by simp [keys_append, keys_toRec, keys_addedConst, keys_singleton, keys_cons, keys_nil, specDailyKeys])]
    simp only [except_bind_ok]
    rw [outlierStep_eval specDailyKeys l
      (fun _ d => (toRec d ++ addedConst now rc l.length) ++
        [("day_of_week", Val.str (dayName d.date))])
      SpecDaily.vmean SpecDaily.vstd (by decide) hne
      (fun _ _ => rfl) (fun _ _ => rfl)
      (fun _ _ => by simp [keys_append, keys_toRec, keys_addedConst, keys_singleton, keys_cons, keys_nil, specDailyKeys])]
    refine congrArg Except.ok (mapWithIndex_congr _ _ l (fun i _ d => ?_))
    simp [enrichedRowSpec, h3]

lemma keys_meanOnlyRec (p : ℤ × ℚ) : keys (meanOnlyRec p) = ["date", "value_mean"] := rfl

lemma keys_stdOnlyRec (q : ℚ) : keys (stdOnlyRec q) = ["value_std"] := rfl

lemma lookup_eq_none_of_not_mem (xs : Record) (k : String) (h : k ∉ keys xs) :
    List.lookup k xs = none := by
  induction xs with
  | nil => rfl
  | cons p t ih =>
    obtain ⟨k1, v1⟩ := p
    have hne : (k == k1) = false := beq_eq_false_iff_ne.mpr
      (fun he => h (he ▸ List.mem_cons_self k1 (keys t)))
    simp only [List.lookup, hne]
    exact ih (fun hm => h (List.mem_cons_of_mem k1 hm))

lemma lookup_append_singleton (xs : Record) (k : String) (v : Val) (h : k ∉ keys xs) :
    List.lookup k (xs ++ [(k, v)]) = some v := by
  induction xs with
  | nil => simp [List.lookup]
  | cons p t ih =>
    obtain ⟨k1, v1⟩ := p
    have hne : (k == k1) = false := beq_eq_false_iff_ne.mpr
      (fun he => h (he ▸ List.mem_cons_self k1 (keys t)))
    simp only [List.cons_append, List.lookup, hne]
    exact ih (fun hm => h (List.mem_cons_of_mem k1 hm))

/-- Evaluation of enrich_dataset on any nonempty list of aggregate rows
that carry a date and a mean but no stddev column. -/
theorem enrich_meanOnly_eval (now : String) (rc : ℤ) (l : List (ℤ × ℚ)) (hne : l ≠ []) :
    enrich_dataset now (l.map meanOnlyRec) rc =
      .ok (mapWithIndex (fun i p =>
        ((meanOnlyRec p ++ addedConst now rc l.length)
          ++ (if 3 ≤ l.length then
                [("value_mean_3day_ma", Val.num (windowMean (l.map Prod.snd) i))] else []))
          ++ [("day_of_week", Val.str (dayName p.1))]) l) := by
  have hcols : cols (l.map meanOnlyRec) = ["date", "value_mean"] := by
    rw [cols_uniform meanOnlyRec ["date", "value_mean"] (fun p => rfl) l hne]; rfl
  have hbase : baseCols now (l.map meanOnlyRec) rc =
      l.map (fun p => meanOnlyRec p ++ addedConst now rc l.length) :=
    baseCols_uniform meanOnlyRec ["date", "value_mean"] (fun p => rfl) rfl (by decide)
      (by decide) (by decide) (by decide) now rc l hne
  unfold enrich_dataset
  rw [if_neg (by rw [map_not_isEmpty meanOnlyRec l hne]; exact Bool.false_ne_true)]
  rw [hcols, hbase, List.length_map, map_eq_mapWithIndex]
  by_cases h3 : 3 ≤ l.length
  · rw [maStep_eval _ l (fun _ p => meanOnlyRec p ++ addedConst now rc l.length)
      Prod.snd h3 (by decide) (fun _ _ => rfl)
      (fun _ _ => by simp [keys_append, keys_meanOnlyRec, keys_addedConst])]
    simp only [except_bind_ok]
    rw [dowStep_eval _ l
      (fun i p => (meanOnlyRec p ++ addedConst now rc l.length) ++
        [("value_mean_3day_ma", Val.num (windowMean (l.map Prod.snd) i))])
      Prod.fst (by decide) (fun _ _ => rfl)
      (fun _ _ => by simp [keys_append, keys_meanOnlyRec, keys_addedConst, keys_singleton])]
    simp only [except_bind_ok]
    rw [outlierStep_skip _ _ (by decide)]
    refine congrArg Except.ok (mapWithIndex_congr _ _ l (fun i _ p => ?_))
    simp [h3]
  · rw [maStep_skip _ _ _ h3]
    simp only [except_bind_ok]
    rw [dowStep_eval _ l (fun _ p => meanOnlyRec p ++ addedConst now rc l.length)
      Prod.fst (by decide) (fun _ _ => rfl)
      (fun _ _ => by simp [keys_append, keys_meanOnlyRec, keys_addedConst])]
    simp only [except_bind_ok]
    rw [outlierStep_skip _ _ (by decide)]
    refine congrArg Except.ok (mapWithIndex_congr _ _ l (fun i _ p => ?_))
    simp [h3]

/-- Evaluation of enrich_dataset on a short (fewer than three rows)
nonempty list of aggregate rows that carry only a stddev column. -/
theorem enrich_stdOnly_short_eval (now : String) (rc : ℤ) (l : List ℚ) (hne : l ≠ [])
    (h3 : l.length < 3) :
    enrich_dataset now (l.map stdOnlyRec) rc =
      .ok (l.map (fun q => stdOnlyRec q ++ addedConst now rc l.length)) := by
  have hcols : cols (l.map stdOnlyRec) = ["value_std"] := by
    rw [cols_uniform stdOnlyRec ["value_std"] (fun q => rfl) l hne]; rfl
  have hbase : baseCols now (l.map stdOnlyRec) rc =
      l.map (fun q => stdOnlyRec q ++ addedConst now rc l.length) :=
    baseCols_uniform stdOnlyRec ["value_std"] (fun q => rfl) rfl (by decide)
      (by decide) (by decide) (by decide) now rc l hne
  unfold enrich_dataset
  rw [if_neg (by rw [map_not_isEmpty stdOnlyRec l hne]; exact Bool.false_ne_true)]
  rw [hcols, hbase, List.length_map]
  rw [maStep_skip _ _ _ (by omega)]
  simp only [except_bind_ok]
  rw [dowStep_skip _ _ (by decide)]
  simp only [except_bind_ok]
  rw [outlierStep_skip _ _ (by decide)]

/-- With three or more rows and no value_mean column, the moving-average
assignment raises a KeyError. -/
theorem enrich_stdOnly_keyError (now : String) (rc : ℤ) (l : List ℚ) (h3 : 3 ≤ l.length) :
    enrich_dataset now (l.map stdOnlyRec) rc = .error .keyError := by
  have hne : l ≠ [] := by
    intro he; rw [he] at h3; simp at h3
  have hcols : cols (l.map stdOnlyRec) = ["value_std"] := by
    rw [cols_uniform stdOnlyRec ["value_std"] (fun q => rfl) l hne]; rfl
  unfold enrich_dataset
  rw [if_neg (by rw [map_not_isEmpty stdOnlyRec l hne]; exact Bool.false_ne_true)]
  rw [hcols, List.length_map]
  rw [maStep_keyError _ _ _ h3 (by decide)]
  rfl

lemma windowMean_zero (qs : List ℚ) (h : qs ≠ []) : windowMean qs 0 = qs.headI := by
  cases qs with
  | nil => exact absurd rfl h
  | cons a t => simp [windowMean]

/-- A retried overwrite ends in the same state as a single success. -/
theorem putObject_idem (store : List (String × String)) (k p : String) :
    putObject (putObject store k p) k p = putObject store k p := by
  simp [putObject, List.filter_filter]

lemma executeAttempts_fail (c : ℕ → Bool) (hc : ∀ i, c i = false) :
    ∀ n used, executeAttempts c n used = (.failed, used + n) := by
  intro n
  induction n with
  | zero => intro used; simp [executeAttempts]
  | succ n ih =>
    intro used
    simp only [executeAttempts, hc used, Bool.false_eq_true, if_false, ih (used + 1),
      Prod.mk.injEq]
    exact ⟨trivial, by omega⟩

/-- C1.  The claim says the upload keys embed the logical schedule date of
the run.  They do not: the placeholder string assigned inside the TaskFlow
task body is never Jinja-rendered, so every run writes the same literal
key (here evaluated against logical date 2025-05-01).  The overwrite half
of the claim does hold (see putObject_idem). -/
theorem spec_c1_upload_key_literal :
    (upload_daily_data [] "payload").2 = "daily/\x7b\x7b ds \x7d\x7d/daily_metrics.json" ∧
    (upload_daily_data [] "payload").2 ≠ "daily/2025-05-01/daily_metrics.json" ∧
    (upload_hourly_data [] "payload").2 = "hourly/\x7b\x7b ds \x7d\x7d/hourly_metrics.json" ∧
    (upload_hourly_data [] "payload").2 ≠ "hourly/2025-05-01/hourly_metrics.json" := by
  exact ⟨rfl, by decide, rfl, by decide⟩

/-- C2.  The claim says clean_dataset does not mutate its input.  On a
one-record frame whose id is missing, the in-place dropna of line 30
leaves the caller frame with zero rows after the call. -/
theorem spec_c2_mutates_input :
    ((clean_dataset c2Input).1).length = 0 ∧ c2Input.length = 1 :=
  ⟨rfl, rfl⟩

/-- C3.  The claim says unparsable timestamps never cause an exception to
escape clean_dataset.  In fact the call raises for every input — even one
whose single record is fully valid and parsable (nothing is dropped by
the cleaning filter) — because the hourly reset_index hits two index
levels both named timestamp. -/
theorem spec_c3_raises_even_when_all_parsable :
    (clean_dataset c3Input).2 = .error .valueErrorDuplicateColumn ∧
    (cleanedRows c3Input).length = c3Input.length :=
  ⟨rfl, rfl⟩

/-- C4.  The claim speaks of the daily aggregates returned by
clean_dataset; the call raises before returning them, for every input. -/
theorem spec_c4_no_daily_aggregates_returned :
    (clean_dataset c4Input).2 = .error .valueErrorDuplicateColumn :=
  rfl

/-- C5.  enrich_dataset of an empty aggregate list returns the empty list
for every raw count: the enrichment block (including the division by the
row count) is guarded by the emptiness test, so nothing is computed. -/
theorem spec_c5_enrich_empty (now : String) (rc : ℤ) :
    enrich_dataset now [] rc = .ok [] := rfl

/-- C8.  The spec scenario: 25 raw records over 2 days, 3 unparsable.
The cleaning filter would indeed keep 22 rows, but clean_dataset raises
at the hourly reset_index before anything reaches enrich_dataset, so the
claimed cleaned count, daily rows and enriched fields never materialize. -/
theorem spec_c8_pipeline_never_reaches_enrich :
    sample25.length = 25 ∧ (cleanedRows sample25).length = 22 ∧
    (clean_dataset sample25).2 = .error .valueErrorDuplicateColumn := by
  exact ⟨by decide, by decide, rfl⟩

/-- C9.  Modelled from the spec (section 4.3): a task whose callable
fails on every attempt, configured with max_attempts = 3, ends terminally
Failed after exactly 3 attempts, and with exponential backoff the delay
schedule is min(base * multiplier^k, max_delay): base, then base*mult,
then capped at the maximum delay. -/
theorem spec_c9_retry_exhaustion (c : ℕ → Bool) (d m M : ℚ)
    (hc : ∀ i, c i = false) (h1 : d ≤ M) (h2 : d * m ≤ M) :
    executeTask 3 c = (.failed, 3) ∧
    backoffDelay d m M 0 = d ∧
    backoffDelay d m M 1 = d * m ∧
    (∀ k, backoffDelay d m M k ≤ M) ∧
    (∀ k, M ≤ d * m ^ k → backoffDelay d m M k = M) := by
  refine ⟨by simpa using executeAttempts_fail c hc 3 0, ?_, ?_, ?_, ?_⟩
  · simp [backoffDelay, min_eq_left h1]
  · simp [backoffDelay, min_eq_left h2]
  · intro k; exact min_le_right _ _
  · intro k hk; simp [backoffDelay, min_eq_right hk]

/-- Witness for C9 at the default_args numbers: base 5 minutes,
multiplier 2, cap 60 minutes; the fifth delay would be 80 and is capped. -/
theorem spec_c9_retry_exhaustion_witness :
    executeTask 3 (fun _ => false) = (.failed, 3) ∧
    backoffDelay 5 2 60 0 = 5 ∧ backoffDelay 5 2 60 1 = 10 ∧ backoffDelay 5 2 60 4 = 60 := by
  have h := spec_c9_retry_exhaustion (fun _ => false) 5 2 60 (fun _ => rfl)
    (by norm_num) (by norm_num)
  refine ⟨h.1, h.2.1, ?_, ?_⟩
  · rw [h.2.2.1]; norm_num
  · exact h.2.2.2.2 4 (by norm_num)

/-- C6.  Over spec-shaped daily aggregates, the moving-average field is
present in every enriched row exactly when the input has at least three
rows; when present it holds one value per row, namely the mean of the
trailing window of (up to three) value_mean cells ending at that row, and
for the first row that is the row's own value_mean. -/
theorem spec_c6_moving_average (now : String) (rc : ℤ) (l : List SpecDaily) (hne : l ≠ []) :
    ∃ out, enrich_dataset now (l.map toRec) rc = .ok out ∧
      out.length = l.length ∧
      (∀ i r, out[i]? = some r →
        List.lookup "value_mean_3day_ma" r =
          if 3 ≤ l.length then some (Val.num (windowMean (l.map SpecDaily.vmean) i))
          else none) ∧
      (3 ≤ l.length → ∀ d r, l[0]? = some d → out[0]? = some r →
        List.lookup "value_mean_3day_ma" r = some (Val.num d.vmean)) := by
  refine ⟨mapWithIndex (enrichedRowSpec now rc l) l, enrich_toRec_eval now rc l hne,
    length_mapWithIndex _ _, ?_, ?_⟩
  · intro i r hr
    rw [getElem?_mapWithIndex] at hr
    obtain ⟨d, hd, hrow⟩ := Option.map_eq_some'.mp hr
    rw [← hrow]
    by_cases h3 : 3 ≤ l.length
    · simp only [enrichedRowSpec, if_pos h3]
      rfl
    · simp only [enrichedRowSpec, if_neg h3]
      rfl
  · intro h3 d r hd hr
    rw [getElem?_mapWithIndex] at hr
    obtain ⟨d', hd', hrow⟩ := Option.map_eq_some'.mp hr
    rw [hd] at hd'
    obtain rfl : d = d' := by injection hd'
    rw [← hrow]
    have hlk : List.lookup "value_mean_3day_ma" (enrichedRowSpec now rc l 0 d) =
        some (Val.num (windowMean (l.map SpecDaily.vmean) 0)) := by
      simp only [enrichedRowSpec, if_pos h3]
      rfl
    have hmv : (l.map SpecDaily.vmean).headI = d.vmean := by
      cases l with
      | nil => simp at hd
      | cons a t =>
        have ha : a = d := by simpa using hd
        simp [ha]
    rw [hlk, windowMean_zero _ (fun he => hne (List.map_eq_nil_iff.mp he)), hmv]

/-- Witness for C6 on three concrete daily rows with means 1, 2, 6. -/
theorem spec_c6_moving_average_witness :
    (([c6RowA, c6RowB, c6RowC] : List SpecDaily) ≠ []) ∧
    ∃ out, enrich_dataset "2025-05-02T02:00:00" ([c6RowA, c6RowB, c6RowC].map toRec) 3 =
        .ok out ∧
      out.length = 3 ∧
      ∀ r, out[0]? = some r → List.lookup "value_mean_3day_ma" r = some (Val.num 1) := by
  obtain ⟨out, h1, h2, h3, h4⟩ :=
    spec_c6_moving_average "2025-05-02T02:00:00" 3 [c6RowA, c6RowB, c6RowC] (by simp)
  refine ⟨by simp, out, h1, h2, fun r hr => ?_⟩
  exact h4 (by decide) c6RowA r rfl hr

/-- C10.  Over spec-shaped daily aggregates (equal-keyed records),
enrichment returns exactly one output row per input row, and on every
key of the input row the output row still looks up to the original
value: enrichment only appends fields. -/
theorem spec_c10_enrichment_preserves_fields (now : String) (rc : ℤ) (l : List SpecDaily)
    (hne : l ≠ []) :
    ∃ out, enrich_dataset now (l.map toRec) rc = .ok out ∧
      out.length = l.length ∧
      ∀ (i : ℕ) (d : SpecDaily) (r : Record), l[i]? = some d → out[i]? = some r →
        ∀ k, k ∈ keys (toRec d) → List.lookup k r = List.lookup k (toRec d) := by
  refine ⟨_, enrich_toRec_eval now rc l hne, length_mapWithIndex _ _, ?_⟩
  intro i d r hd hr k hk
  rw [getElem?_mapWithIndex, hd] at hr
  obtain rfl : enrichedRowSpec now rc l i d = r := by simpa using hr
  unfold enrichedRowSpec
  have hk1 : k ∈ keys (toRec d ++ addedConst now rc l.length) := by
    rw [keys_append]; exact List.mem_append_left _ hk
  have hk2 : k ∈ keys ((toRec d ++ addedConst now rc l.length) ++
      (if 3 ≤ l.length then
        [("value_mean_3day_ma", Val.num (windowMean (l.map SpecDaily.vmean) i))]
       else [])) := by
    rw [keys_append]; exact List.mem_append_left _ hk1
  have hk3 : k ∈ keys (((toRec d ++ addedConst now rc l.length) ++
      (if 3 ≤ l.length then
        [("value_mean_3day_ma", Val.num (windowMean (l.map SpecDaily.vmean) i))]
       else [])) ++ [("day_of_week", Val.str (dayName d.date))]) := by
    rw [keys_append]; exact List.mem_append_left _ hk2
  rw [lookup_append_left hk3, lookup_append_left hk2, lookup_append_left hk1,
    lookup_append_left hk]

/-- Witness for C10 on two concrete daily rows. -/
theorem spec_c10_enrichment_preserves_fields_witness :
    (([c10RowA, c10RowB] : List SpecDaily) ≠ []) ∧
    ∃ out, enrich_dataset "2025-05-02T02:00:00" ([c10RowA, c10RowB].map toRec) 22 = .ok out ∧
      out.length = 2 ∧
      ∀ r, out[0]? = some r → List.lookup "value_mean" r = some (Val.num 5) := by
  obtain ⟨out, h1, h2, h3⟩ :=
    spec_c10_enrichment_preserves_fields "2025-05-02T02:00:00" 22 [c10RowA, c10RowB] (by simp)
  refine ⟨by simp, out, h1, h2, fun r hr => ?_⟩
  have h := h3 0 c10RowA r rfl hr "value_mean" (by decide)
  rw [h]; rfl

/-- C7 counterexample: the claim says that when the value_mean column is
absent the outlier flag is simply omitted, never an error; but on three
rows that carry only value_std, enrich_dataset raises a KeyError (in the
moving-average step) instead of returning flag-less rows. -/
theorem spec_c7_outlier_flag_cex :
    enrich_dataset "t" [stdOnlyRec 1, stdOnlyRec 1, stdOnlyRec 1] 3 = .error .keyError := by
  have h := enrich_stdOnly_keyError "t" 3 [1, 1, 1] (by decide)
  simpa using h

/-- C7 (amended).  When both value_mean and value_std columns are present
(spec-shaped aggregates), each row's outlier flag is true exactly when
the row's mean deviates from the average of means by more than three
times the average of stddevs; when value_std is absent the flag is
omitted without error; when value_mean is absent the flag is omitted
without error only for inputs of fewer than three rows — with three or
more rows enrich_dataset raises a KeyError in the moving-average step
before the outlier logic runs. -/
theorem spec_c7_outlier_flag :
    (∀ (now : String) (rc : ℤ) (l : List SpecDaily), l ≠ [] →
      ∃ out, enrich_dataset now (l.map toRec) rc = .ok out ∧
        ∀ (i : ℕ) (d : SpecDaily) (r : Record), l[i]? = some d → out[i]? = some r →
          List.lookup "is_outlier" r =
            some (Val.bool (decide (3 * listMean (l.map SpecDaily.vstd) <
              |d.vmean - listMean (l.map SpecDaily.vmean)|)))) ∧
    (∀ (now : String) (rc : ℤ) (l : List (ℤ × ℚ)), l ≠ [] →
      ∃ out, enrich_dataset now (l.map meanOnlyRec) rc = .ok out ∧
        ∀ r ∈ out, List.lookup "is_outlier" r = none) ∧
    (∀ (now : String) (rc : ℤ) (l : List ℚ), l ≠ [] → l.length < 3 →
      ∃ out, enrich_dataset now (l.map stdOnlyRec) rc = .ok out ∧
        ∀ r ∈ out, List.lookup "is_outlier" r = none) ∧
    (∀ (now : String) (rc : ℤ) (l : List ℚ), 3 ≤ l.length →
      enrich_dataset now (l.map stdOnlyRec) rc = .error .keyError) := by
  refine ⟨?_, ?_, ?_, ?_⟩
  · intro now rc l hne
    refine ⟨_, enrich_toRec_eval now rc l hne, ?_⟩
    intro i d r hd hr
    rw [getElem?_mapWithIndex, hd] at hr
    obtain rfl : enrichedRowSpec now rc l i d = r := by simpa using hr
    unfold enrichedRowSpec
    have hno : "is_outlier" ∉ keys (((toRec d ++ addedConst now rc l.length) ++
        (if 3 ≤ l.length then
          [("value_mean_3day_ma", Val.num (windowMean (l.map SpecDaily.vmean) i))]
         else [])) ++ [("day_of_week", Val.str (dayName d.date))]) := by
      by_cases h3 : 3 ≤ l.length <;>
        simp [keys_append, keys_toRec, keys_addedConst, keys_singleton, keys_cons,
          keys_nil, specDailyKeys, h3]
    exact lookup_append_singleton _ _ _ hno
  · intro now rc l hne
    refine ⟨_, enrich_meanOnly_eval now rc l hne, ?_⟩
    intro r hr
    obtain ⟨i, p, hp, rfl⟩ := mem_mapWithIndex _ l hr
    refine lookup_eq_none_of_not_mem _ _ ?_
    by_cases h3 : 3 ≤ l.length <;>
      simp [keys_append, keys_meanOnlyRec, keys_addedConst, keys_singleton, keys_cons,
        keys_nil, h3]
  · intro now rc l hne h3
    refine ⟨_, enrich_stdOnly_short_eval now rc l hne h3, ?_⟩
    intro r hr
    obtain ⟨q, hq, rfl⟩ := List.mem_map.mp hr
    refine lookup_eq_none_of_not_mem _ _ ?_
    simp [keys_append, keys_stdOnlyRec, keys_addedConst]
  · intro now rc l h3
    exact enrich_stdOnly_keyError now rc l h3

/-- Witness for C7: a single spec-shaped row gets flag false (its mean
equals the average of means), and the three-row value_std-only frame
raises the KeyError. -/
theorem spec_c7_outlier_flag_witness :
    (∃ out, enrich_dataset "t" ([c7Row].map toRec) 1 = .ok out ∧
      ∀ r, out[0]? = some r → List.lookup "is_outlier" r = some (Val.bool false)) ∧
    enrich_dataset "t" (([1, 1, 1] : List ℚ).map stdOnlyRec) 3 = .error .keyError := by
  have H := spec_c7_outlier_flag
  obtain ⟨out, h1, h2⟩ := H.1 "t" 1 [c7Row] (by simp)
  refine ⟨⟨out, h1, fun r hr => ?_⟩, H.2.2.2 "t" 3 [1, 1, 1] (by decide)⟩
  have h := h2 0 c7Row r rfl hr
  rw [h]
  norm_num [listMean, c7Row]
